import Mathlib

/-!
# Poetry Book Tracker: annotation store, filter/sort pipeline, statistics, recommendations

A shallow embedding of `src/app.js`.

* The three globals `allBooks`, `filteredBooks`, `userData` and the values of the four filter
  controls and of the sort control form the record `State`; every handler is a function on it.
* A JavaScript object used as a table (`userData`, `preferredGenres`, `preferredThemes`) is a
  finite map on its own properties and is written as a function into `Option`.  Keys that collide
  with a property inherited from `Object.prototype` are outside the model.
* Ratings, years, scores and sums of ratings are integers (`Int`); every stored annotation
  carries both fields.  The one number that is not an integer, the quotient in `updateStats`, is
  the double nearest to the exact quotient (`toDouble`), printed by `toFixed1`.
* `Array.prototype.sort` is stable; for a comparator it is the stable insertion sort `arraySort`.
* `String.prototype.toLowerCase` and `String.prototype.localeCompare` are host functions and are
  taken as parameters (`Host`); `trim` and `includes` are defined on code points.
* Rendering and `localStorage` write-through do not influence any value modelled here.
-/

namespace PoetryBookTracker

/-! ## Data model -/

/-- One record of `books.json`. -/
structure Book where
  id : Int
  title : String
  author : String
  year : Int
  haiku : String
  genres : List String
  themes : List String
deriving DecidableEq, Repr

/-- The per-book annotation stored in `userData`. -/
structure UserBookData where
  read : Bool
  rating : Int
deriving DecidableEq, Repr

/-- The global `userData`: book id to stored annotation, `none` when the id has no entry. -/
abbrev UserData := Int → Option UserBookData

/-- The object literal passed to `setUserBookData`: each field is present or absent. -/
structure BookDataPatch where
  read : Option Bool
  rating : Option Int
deriving DecidableEq, Repr

/-- The host string functions the program calls but does not define. -/
structure Host where
  toLowerCase : String → String
  localeCompare : String → String → Int

/-- The globals of `app.js` together with the values of the filter and sort controls. -/
structure State where
  allBooks : List Book
  filteredBooks : List Book
  userData : UserData
  searchInput : String
  genreFilter : String
  themeFilter : String
  statusFilter : String
  sortBy : String

/-! ## Local storage functions -/

/-- Source: `getUserBookData`, `userData[bookId] || { read: false, rating: 0 }`. -/
def getUserBookData (userData : UserData) (bookId : Int) : UserBookData :=
  (userData bookId).getD { read := false, rating := 0 }

/-- Object spread `{ ...base, ...data }`: a field present in `data` overrides the one of `base`. -/
def spread (base : UserBookData) (data : BookDataPatch) : UserBookData :=
  { read := data.read.getD base.read, rating := data.rating.getD base.rating }

/-- Source: the assignment `userData[bookId] = { ...getUserBookData(bookId), ...data }`. -/
def assignUserBookData (userData : UserData) (bookId : Int) (data : BookDataPatch) : UserData :=
  fun k => if k = bookId then some (spread (getUserBookData userData bookId) data) else userData k

/-- Source: `setUserBookData`; the statistics and recommendation panels are recomputed from the
new state and are not part of it. -/
def setUserBookData (s : State) (bookId : Int) (data : BookDataPatch) : State :=
  { s with userData := assignUserBookData s.userData bookId data }

/-! ## Array sort -/

/-- Insert `a` in front of the first element it does not have to follow. -/
def insertSorted {α : Type} (cmp : α → α → Int) (a : α) : List α → List α
  | [] => [a]
  | b :: l => if cmp a b ≤ 0 then a :: b :: l else b :: insertSorted cmp a l

/-- Stable sort by a comparator `cmp`, where `cmp a b ≤ 0` lets `a` stay before `b`. -/
def arraySort {α : Type} (cmp : α → α → Int) : List α → List α
  | [] => []
  | a :: l => insertSorted cmp a (arraySort cmp l)

/-! ## Filtering and sorting -/

/-- The code points removed by `String.prototype.trim`: WhiteSpace and LineTerminator. -/
def isWhiteSpace (c : Char) : Bool :=
  let n := c.toNat
  n == 0x9 || n == 0xA || n == 0xB || n == 0xC || n == 0xD || n == 0x20 || n == 0xA0 ||
    n == 0x1680 || (0x2000 ≤ n && n ≤ 0x200A) || n == 0x2028 || n == 0x2029 || n == 0x202F ||
    n == 0x205F || n == 0x3000 || n == 0xFEFF

/-- Source: `String.prototype.trim`, white space removed at both ends. -/
def trim (s : String) : String :=
  ⟨((s.data.dropWhile isWhiteSpace).reverse.dropWhile isWhiteSpace).reverse⟩

/-- Search of `term` at every position of `text`. -/
def listIncludes (term : List Char) : List Char → Bool
  | [] => term.isPrefixOf []
  | c :: text => term.isPrefixOf (c :: text) || listIncludes term text

/-- Source: `String.prototype.includes`. -/
def includes (text term : String) : Bool :=
  listIncludes term.data text.data

/-- Source: `matchesSearch` in `applyFilters`. -/
def matchesSearch (H : Host) (searchTerm : String) (book : Book) : Bool :=
  searchTerm == "" ||
    includes (H.toLowerCase book.title) searchTerm ||
    includes (H.toLowerCase book.author) searchTerm

/-- Source: `matchesGenre` in `applyFilters`. -/
def matchesGenre (selectedGenre : String) (book : Book) : Bool :=
  selectedGenre == "" || book.genres.contains selectedGenre

/-- Source: `matchesTheme` in `applyFilters`. -/
def matchesTheme (selectedTheme : String) (book : Book) : Bool :=
  selectedTheme == "" || book.themes.contains selectedTheme

/-- Source: `matchesStatus` in `applyFilters`. -/
def matchesStatus (userData : UserData) (selectedStatus : String) (book : Book) : Bool :=
  if selectedStatus = "read" then (getUserBookData userData book.id).read
  else if selectedStatus = "unread" then !(getUserBookData userData book.id).read
  else true

/-- Source: the comparator of `applySorting`, a `switch` on the sort value. -/
def compareBooks (H : Host) (userData : UserData) (sortValue : String) (a b : Book) : Int :=
  if sortValue = "title" then H.localeCompare a.title b.title
  else if sortValue = "author" then H.localeCompare a.author b.author
  else if sortValue = "year" then a.year - b.year
  else if sortValue = "year-desc" then b.year - a.year
  else if sortValue = "rating" then
    (getUserBookData userData b.id).rating - (getUserBookData userData a.id).rating
  else 0

/-- Source: `applySorting`, which sorts `filteredBooks` in place by `sortBy.value`. -/
def applySorting (H : Host) (s : State) : State :=
  { s with filteredBooks := arraySort (compareBooks H s.userData s.sortBy) s.filteredBooks }

/-- Source: the predicate given to `allBooks.filter` in `applyFilters`. -/
def filterPredicate (H : Host) (s : State) (book : Book) : Bool :=
  let searchTerm := trim (H.toLowerCase s.searchInput)
  matchesSearch H searchTerm book && matchesGenre s.genreFilter book &&
    matchesTheme s.themeFilter book && matchesStatus s.userData s.statusFilter book

/-- Source: `applyFilters`, filter of the catalog followed by `applySorting`. -/
def applyFilters (H : Host) (s : State) : State :=
  applySorting H { s with filteredBooks := s.allBooks.filter (filterPredicate H s) }

/-- Source: `resetFilters`. -/
def resetFilters (H : Host) (s : State) : State :=
  applyFilters H
    { s with searchInput := "", genreFilter := "", themeFilter := "", statusFilter := "",
             sortBy := "title" }

/-! ## Statistics -/

/-- Round to the nearest integer, a tie going to the even neighbour. -/
def roundHalfEven (x : ℚ) : Int :=
  if x - ⌊x⌋ < 1 / 2 then ⌊x⌋
  else if 1 / 2 < x - ⌊x⌋ then ⌊x⌋ + 1
  else if ⌊x⌋ % 2 = 0 then ⌊x⌋
  else ⌊x⌋ + 1

/-- The value of the IEEE 754 double nearest to `x`, a tie going to the even significand:
53 significant bits at the binary exponent of `x` (normal range, no overflow or underflow). -/
def toDouble (x : ℚ) : ℚ :=
  if x = 0 then 0
  else
    (roundHalfEven (x / (2 : ℚ) ^ (Int.log 2 |x| - 52)) : ℚ) * (2 : ℚ) ^ (Int.log 2 |x| - 52)

/-- Source: `Number.prototype.toFixed(1)`, as the integer `n` of tenths it prints: the `n` with
`n / 10` nearest to the magnitude of `x`, the larger `n` on a tie, with the sign of `x`. -/
def toFixed1 (x : ℚ) : Int :=
  if x < 0 then -⌊10 * (-x) + 1 / 2⌋ else ⌊10 * x + 1 / 2⌋

/-- What `updateStats` writes into the three statistics elements; `averageRating` is the number
of tenths printed by `toFixed(1)`, or `none` for the text '-'. -/
structure Stats where
  totalBooks : Nat
  booksRead : Nat
  averageRating : Option Int
deriving DecidableEq, Repr

/-- Source: `ratedBooks` in `updateStats`, the books with a rating above 0. -/
def ratedBooks (allBooks : List Book) (userData : UserData) : List Book :=
  allBooks.filter (fun book => decide ((getUserBookData userData book.id).rating > 0))

/-- Source: `totalRating` in `updateStats`, the `reduce` over `ratedBooks`. -/
def totalRating (allBooks : List Book) (userData : UserData) : Int :=
  (ratedBooks allBooks userData).foldl
    (fun sum book => sum + (getUserBookData userData book.id).rating) 0

/-- Source: `updateStats`. -/
def updateStats (allBooks : List Book) (userData : UserData) : Stats :=
  { totalBooks := allBooks.length
    booksRead := (allBooks.filter (fun book => (getUserBookData userData book.id).read)).length
    averageRating :=
      if (ratedBooks allBooks userData).length > 0 then
        some (toFixed1 (toDouble
          ((totalRating allBooks userData : ℚ) / ((ratedBooks allBooks userData).length : ℚ))))
      else none }

/-! ## Recommendations -/

/-- A table from label to accumulated weight, `none` for a label that was never written. -/
abbrev Table := String → Option Int

/-- The empty object literal. -/
def emptyTable : Table := fun _ => none

/-- Source: `table[label] = (table[label] || 0) + weight`. -/
def addWeight (t : Table) (label : String) (weight : Int) : Table :=
  fun k => if k = label then some ((t label).getD 0 + weight) else t k

/-- Source: the inner `forEach` over the labels of one highly rated book. -/
def addLabels (t : Table) (labels : List String) (weight : Int) : Table :=
  labels.foldl (fun acc label => addWeight acc label weight) t

/-- Source: the `forEach` over `highlyRatedBooks` filling `preferredGenres`, `preferredThemes`. -/
def collectPreferences (userData : UserData) (highlyRatedBooks : List Book) : Table × Table :=
  highlyRatedBooks.foldl
    (fun acc book =>
      let weight := (getUserBookData userData book.id).rating
      (addLabels acc.1 book.genres weight, addLabels acc.2 book.themes weight))
    (emptyTable, emptyTable)

/-- Truthiness of a table lookup: defined and not zero. -/
def truthy (v : Option Int) : Bool :=
  match v with
  | some n => n != 0
  | none => false

/-- Source: the body of `unreadBooks.map`, the score of one candidate. -/
def scoreBook (preferredGenres preferredThemes : Table) (book : Book) : Int :=
  let score := book.genres.foldl
    (fun score genre =>
      if truthy (preferredGenres genre) then score + (preferredGenres genre).getD 0 * 2 else score)
    0
  book.themes.foldl
    (fun score theme =>
      if truthy (preferredThemes theme) then score + (preferredThemes theme).getD 0 else score)
    score

/-- Source: `highlyRatedBooks`, the books rated 4 or more. -/
def highlyRatedBooks (allBooks : List Book) (userData : UserData) : List Book :=
  allBooks.filter (fun book => decide ((getUserBookData userData book.id).rating ≥ 4))

/-- A user action: the control takes its new value, then the listener registered for it runs. -/
inductive Event where
  | searchInput (value : String)
  | genreChange (value : String)
  | themeChange (value : String)
  | statusChange (value : String)
  | sortByChange (value : String)
  | resetClick
  | annotate (bookId : Int) (data : BookDataPatch)

/-- Source: the listeners set up at the end of `app.js` and in `attachEventListeners`. -/
def handle (H : Host) (s : State) : Event → State
  | .searchInput v => applyFilters H { s with searchInput := v }
  | .genreChange v => applyFilters H { s with genreFilter := v }
  | .themeChange v => applyFilters H { s with themeFilter := v }
  | .statusChange v => applyFilters H { s with statusFilter := v }
  | .sortByChange v => applySorting H { s with sortBy := v }
  | .resetClick => resetFilters H s
  | .annotate bookId data => setUserBookData s bookId data

/-- Source: `loadUserData` then `loadBooks`, after which `filteredBooks` is a copy of
`allBooks`; the controls hold whatever the page gives them. -/
def loadBooks (books : List Book) (stored : UserData)
    (searchInput genreFilter themeFilter statusFilter sortBy : String) : State :=
  { allBooks := books, filteredBooks := books, userData := stored,
    searchInput := searchInput, genreFilter := genreFilter, themeFilter := themeFilter,
    statusFilter := statusFilter, sortBy := sortBy }

/-- The states the page can be in: the loaded state, and any state after one more user action. -/
inductive Reachable (H : Host) : State → Prop
  | load (books : List Book) (stored : UserData) (q g t st k : String) :
      Reachable H (loadBooks books stored q g t st k)
  | step (s : State) (e : Event) : Reachable H s → Reachable H (handle H s e)

/-! ## Specification vocabulary -/

/-- A comparator is consistent when "may stay before" is total and transitive. -/
def Consistent {α : Type} (cmp : α → α → Int) : Prop :=
  (∀ a b, cmp a b ≤ 0 ∨ cmp b a ≤ 0) ∧ (∀ a b c, cmp a b ≤ 0 → cmp b c ≤ 0 → cmp a c ≤ 0)

/-- The string `term` occurs in `text` as a contiguous run of code points. -/
def IsSubstring (term text : String) : Prop :=
  ∃ before after : List Char, text.data = before ++ term.data ++ after

/-- The search clause of `applyFilters` as a function of the raw search text. -/
def searchAccepts (H : Host) (searchText : String) (book : Book) : Bool :=
  matchesSearch H (trim (H.toLowerCase searchText)) book

/-- The search clause as the claim words it, on the raw search text. -/
def SearchClauseOnRawText (H : Host) (searchText : String) (book : Book) : Prop :=
  searchAccepts H searchText book = true ↔
    (searchText = "" ∨
      IsSubstring (H.toLowerCase searchText) (H.toLowerCase book.title) ∨
      IsSubstring (H.toLowerCase searchText) (H.toLowerCase book.author))

/-- The stored rating of a book. -/
def ratingOf (userData : UserData) (book : Book) : Int :=
  (getUserBookData userData book.id).rating

/-- The list is in non-increasing order of stored rating. -/
def RatingSorted (userData : UserData) (l : List Book) : Prop :=
  l.Pairwise (fun a b => ratingOf userData a ≥ ratingOf userData b)

/-- The books of `l` whose stored rating is `v`, in the order they have in `l`. -/
def withRating (userData : UserData) (v : Int) (l : List Book) : List Book :=
  l.filter (fun b => decide (ratingOf userData b = v))

/-- Books of equal rating stand in `l` in an order they also have in `reference`. -/
def TiesFollow (userData : UserData) (l reference : List Book) : Prop :=
  ∀ v, (withRating userData v l).Sublist reference

/-- The arithmetic mean of the ratings of the catalog books whose rating is above 0. -/
def meanRating (allBooks : List Book) (userData : UserData) : ℚ :=
  (((allBooks.filter (fun b => decide (ratingOf userData b > 0))).map
      (ratingOf userData)).sum : ℚ) /
    ((allBooks.filter (fun b => decide (ratingOf userData b > 0))).length : ℚ)

/-- The weight a label has after the seed books are summed in: every seed book adds its rating
once for each time it lists the label. -/
def weightedAffinity (userData : UserData) (field : Book → List String) (seeds : List Book)
    (label : String) : Int :=
  (seeds.map (fun b => ratingOf userData b * ((field b).count label : Int))).sum

/-- The table with an entry, the weighted affinity, for exactly the labels some seed lists. -/
def weightedTable (userData : UserData) (field : Book → List String) (seeds : List Book) :
    Table :=
  fun label =>
    if seeds.any (fun b => (field b).contains label) then
      some (weightedAffinity userData field seeds label)
    else none

/-- One of the two tables filled by the loop over the seed books, from a start table. -/
def tableFold (userData : UserData) (field : Book → List String) (t : Table)
    (seeds : List Book) : Table :=
  seeds.foldl (fun acc b => addLabels acc (field b) (ratingOf userData b)) t

/-- The score `generateRecommendations` computes for a candidate once the tables are built. -/
def candidateScore (allBooks : List Book) (userData : UserData) (book : Book) : Int :=
  scoreBook (collectPreferences userData (highlyRatedBooks allBooks userData)).1
    (collectPreferences userData (highlyRatedBooks allBooks userData)).2 book

/-- Twice the genre weights plus the theme weights, each seed counted once per listing. -/
def weightedScore (allBooks : List Book) (userData : UserData) (book : Book) : Int :=
  2 * (book.genres.map
        (weightedAffinity userData Book.genres (highlyRatedBooks allBooks userData))).sum +
    (book.themes.map
        (weightedAffinity userData Book.themes (highlyRatedBooks allBooks userData))).sum

/-- Lower-casing of the ASCII letters, which is what `toLowerCase` does on ASCII text. -/
def asciiLower (s : String) : String :=
  ⟨s.data.map (fun c => if 65 ≤ c.toNat ∧ c.toNat ≤ 90 then Char.ofNat (c.toNat + 32) else c)⟩

/-- Lexicographic comparison of two lists of code points. -/
def compareCodePoints : List Char → List Char → Int
  | [], [] => 0
  | [], _ :: _ => -1
  | _ :: _, [] => 1
  | a :: as, b :: bs =>
    if a.toNat < b.toNat then -1
    else if b.toNat < a.toNat then 1
    else compareCodePoints as bs

/-- Comparison by code points, a consistent comparator on strings. -/
def codePointCompare (a b : String) : Int :=
  compareCodePoints a.data b.data

/-- A concrete host: ASCII lower-casing and code-point order, which is what the browser gives
on the ASCII words of the examples. -/
def asciiHost : Host :=
  { toLowerCase := asciiLower, localeCompare := codePointCompare }

/-- A small catalog entry. -/
def ariel : Book :=
  { id := 1, title := "Ariel", author := "Plath", year := 1965, haiku := "",
    genres := ["Poetry"], themes := ["Death"] }

/-- A second entry, earlier in time and later in the alphabet. -/
def odes : Book :=
  { id := 2, title := "Odes", author := "Keats", year := 1819, haiku := "",
    genres := ["Poetry"], themes := ["Nature"] }

/-- The store with no entry. -/
def emptyStore : UserData := fun _ => none

/-- The page just after loading the catalog `[ariel, odes]` with the title key selected. -/
def loadedState : State :=
  loadBooks [ariel, odes] emptyStore "" "" "" "" "title"

/-- The page after the catalog `[ariel, odes]` was loaded and the year key was chosen. -/
def yearSortedState : State :=
  handle asciiHost (loadBooks [ariel, odes] emptyStore "" "" "" "" "title") (.sortByChange "year")

/-- A store in which book 1 is rated 5 and book 2 is rated 4. -/
def ratedStore : UserData :=
  fun k =>
    if k = 1 then some { read := true, rating := 5 }
    else if k = 2 then some { read := false, rating := 4 }
    else none

/-! ## Lemmas on the array sort -/

section SortLemmas

variable {α : Type}

theorem arraySort_eq_insertionSort (cmp : α → α → Int) (l : List α) :
    arraySort cmp l = l.insertionSort (fun a b => cmp a b ≤ 0) := by
  induction l with
  | nil => rfl
  | cons a l ih =>
    have hins : ∀ (x : α) (m : List α),
        insertSorted cmp x m = m.orderedInsert (fun a b => cmp a b ≤ 0) x := by
      intro x m
      induction m with
      | nil => rfl
      | cons b m ihm => simp only [insertSorted, List.orderedInsert, ihm]
    simp only [arraySort, List.insertionSort, ih, hins]

theorem arraySort_perm (cmp : α → α → Int) (l : List α) : (arraySort cmp l).Perm l := by
  rw [arraySort_eq_insertionSort]
  exact List.perm_insertionSort _ l

theorem mem_arraySort (cmp : α → α → Int) (l : List α) (x : α) :
    x ∈ arraySort cmp l ↔ x ∈ l :=
  (arraySort_perm cmp l).mem_iff

theorem arraySort_sorted (cmp : α → α → Int) (hc : Consistent cmp) (l : List α) :
    (arraySort cmp l).Pairwise (fun a b => cmp a b ≤ 0) := by
  rw [arraySort_eq_insertionSort]
  haveI : IsTotal α (fun a b => cmp a b ≤ 0) := ⟨hc.1⟩
  haveI : IsTrans α (fun a b => cmp a b ≤ 0) := ⟨hc.2⟩
  exact List.sorted_insertionSort _ l

theorem arraySort_of_sorted (cmp : α → α → Int) (l : List α)
    (h : l.Pairwise (fun a b => cmp a b ≤ 0)) : arraySort cmp l = l := by
  rw [arraySort_eq_insertionSort]
  exact List.Sorted.insertionSort_eq h

theorem arraySort_idem (cmp : α → α → Int) (hc : Consistent cmp) (l : List α) :
    arraySort cmp (arraySort cmp l) = arraySort cmp l :=
  arraySort_of_sorted cmp _ (arraySort_sorted cmp hc l)

theorem arraySort_const_zero (cmp : α → α → Int) (h : ∀ a b, cmp a b = 0) (l : List α) :
    arraySort cmp l = l := by
  apply arraySort_of_sorted
  exact List.pairwise_of_forall (fun a b => by rw [h a b])

/-- Stability of one insertion: when any two elements selected by `p` may stay in their order,
inserting does not change the selected elements or their order. -/
theorem insertSorted_filter (cmp : α → α → Int) (p : α → Bool)
    (hp : ∀ a b, p a = true → p b = true → cmp a b ≤ 0) (a : α) (l : List α) :
    (insertSorted cmp a l).filter p = (a :: l).filter p := by
  induction l with
  | nil => rfl
  | cons b l ih =>
    unfold insertSorted
    split
    · rfl
    · next hab =>
      by_cases ha : p a = true
      · have hb : p b = false := by
          by_contra hb
          exact hab (hp a b ha (by simpa using hb))
        simp only [List.filter_cons, hb, ih, ha]
        simp
      · have ha' : p a = false := by simpa using ha
        simp only [List.filter_cons, ih, ha']
        simp

theorem arraySort_filter (cmp : α → α → Int) (p : α → Bool)
    (hp : ∀ a b, p a = true → p b = true → cmp a b ≤ 0) (l : List α) :
    (arraySort cmp l).filter p = l.filter p := by
  induction l with
  | nil => rfl
  | cons a l ih =>
    simp only [arraySort]
    rw [insertSorted_filter cmp p hp, List.filter_cons, List.filter_cons, ih]

end SortLemmas

theorem compareCodePoints_total (x y : List Char) :
    compareCodePoints x y ≤ 0 ∨ compareCodePoints y x ≤ 0 := by
  induction x generalizing y with
  | nil => cases y <;> simp [compareCodePoints]
  | cons a x ih =>
    cases y with
    | nil => simp [compareCodePoints]
    | cons b y =>
      simp only [compareCodePoints]
      split_ifs <;> first | omega | exact ih y

theorem compareCodePoints_trans (x y z : List Char) :
    compareCodePoints x y ≤ 0 → compareCodePoints y z ≤ 0 → compareCodePoints x z ≤ 0 := by
  induction x generalizing y z with
  | nil => cases z <;> simp [compareCodePoints]
  | cons a x ih =>
    cases y with
    | nil => simp [compareCodePoints]
    | cons b y =>
      cases z with
      | nil => cases y <;> simp [compareCodePoints]
      | cons c z =>
        simp only [compareCodePoints]
        split_ifs <;> first | omega | exact ih y z

theorem codePointCompare_consistent : Consistent codePointCompare :=
  ⟨fun a b => compareCodePoints_total a.data b.data,
   fun a b c => compareCodePoints_trans a.data b.data c.data⟩

/-! ## The annotation store (C9) -/

/-- C9: after `setUserBookData(id, partial)` the store is the previous store with the entry for
`id` replaced by the previous `getUserBookData(id)` overridden by the fields of `partial`; reading
`id` back gives the new value of each field present in `partial` and the old value of each absent
field, every other id reads as before, and the catalog and the visible list are untouched. -/
theorem setUserBookData_spec (s : State) (bookId : Int) (data : BookDataPatch) :
    (setUserBookData s bookId data).userData =
        Function.update s.userData bookId
          (some (spread ((s.userData bookId).getD { read := false, rating := 0 }) data)) ∧
      (getUserBookData (setUserBookData s bookId data).userData bookId).read =
        (match data.read with
          | some v => v
          | none => (getUserBookData s.userData bookId).read) ∧
      (getUserBookData (setUserBookData s bookId data).userData bookId).rating =
        (match data.rating with
          | some v => v
          | none => (getUserBookData s.userData bookId).rating) ∧
      (∀ other, other ≠ bookId →
        getUserBookData (setUserBookData s bookId data).userData other =
          getUserBookData s.userData other) ∧
      (setUserBookData s bookId data).allBooks = s.allBooks ∧
      (setUserBookData s bookId data).filteredBooks = s.filteredBooks := by
  refine ⟨?_, ?_, ?_, ?_, rfl, rfl⟩
  · funext k
    by_cases hk : k = bookId
    · subst hk
      simp [setUserBookData, assignUserBookData, getUserBookData]
    · simp [setUserBookData, assignUserBookData, Function.update, hk]
  · cases h : data.read <;>
      simp [setUserBookData, assignUserBookData, getUserBookData, spread, h]
  · cases h : data.rating <;>
      simp [setUserBookData, assignUserBookData, getUserBookData, spread, h]
  · intro other hne
    simp [setUserBookData, assignUserBookData, getUserBookData, hne]

/-! ## The search clause (C5) -/

theorem listIncludes_iff (term text : List Char) :
    listIncludes term text = true ↔ ∃ before after, text = before ++ term ++ after := by
  induction text with
  | nil =>
    simp only [listIncludes, List.isPrefixOf_iff_prefix, List.prefix_nil]
    constructor
    · rintro rfl
      exact ⟨[], [], rfl⟩
    · rintro ⟨p, q, h⟩
      have h2 : p ++ term = [] := (List.append_eq_nil.mp h.symm).1
      exact (List.append_eq_nil.mp h2).2
  | cons c text ih =>
    simp only [listIncludes, Bool.or_eq_true, ih]
    constructor
    · rintro (h | ⟨p, q, rfl⟩)
      · obtain ⟨t, ht⟩ := List.isPrefixOf_iff_prefix.mp h
        exact ⟨[], t, by simp [ht]⟩
      · exact ⟨c :: p, q, by simp⟩
    · rintro ⟨p, q, h⟩
      cases p with
      | nil =>
        left
        exact List.isPrefixOf_iff_prefix.mpr ⟨q, by simpa using h.symm⟩
      | cons d p =>
        right
        simp only [List.cons_append, List.cons.injEq] at h
        exact ⟨p, q, h.2⟩

theorem includes_iff (text term : String) :
    includes text term = true ↔ IsSubstring term text := by
  unfold includes IsSubstring
  exact listIncludes_iff term.data text.data

theorem matchesSearch_iff (H : Host) (term : String) (book : Book) :
    matchesSearch H term book = true ↔
      (term = "" ∨ IsSubstring term (H.toLowerCase book.title) ∨
        IsSubstring term (H.toLowerCase book.author)) := by
  simp only [matchesSearch, Bool.or_eq_true, beq_iff_eq, includes_iff, or_assoc]

/-- C5, as stated, fails: the search text made of one blank is trimmed to the empty term, so the
clause accepts `ariel`, though the text is not empty and a blank occurs neither in "ariel" nor
in "plath". -/
theorem search_clause_blank_counterexample : ¬ SearchClauseOnRawText asciiHost " " ariel := by
  intro h
  have hacc : searchAccepts asciiHost " " ariel = true := by decide
  rcases h.mp hacc with h1 | h2 | h3
  · exact absurd h1 (by decide)
  · have := (includes_iff _ _).mpr h2
    exact absurd this (by decide)
  · have := (includes_iff _ _).mpr h3
    exact absurd this (by decide)

/-- C5 amended: with `term` the lower-cased and then trimmed search text, the search clause
accepts a book exactly when `term` is empty or occurs in the lower-cased title or in the
lower-cased author; with genre and theme unset and the status neither read nor unread, a book
is in the filtered list exactly when it is in the catalog and satisfies this clause. -/
theorem search_clause_trimmed (H : Host) (s : State) (book : Book)
    (hg : s.genreFilter = "") (ht : s.themeFilter = "")
    (hr : s.statusFilter ≠ "read") (hu : s.statusFilter ≠ "unread") :
    (searchAccepts H s.searchInput book = true ↔
        (trim (H.toLowerCase s.searchInput) = "" ∨
          IsSubstring (trim (H.toLowerCase s.searchInput)) (H.toLowerCase book.title) ∨
          IsSubstring (trim (H.toLowerCase s.searchInput)) (H.toLowerCase book.author))) ∧
      (book ∈ (applyFilters H s).filteredBooks ↔
        book ∈ s.allBooks ∧ searchAccepts H s.searchInput book = true) := by
  refine ⟨matchesSearch_iff H _ book, ?_⟩
  simp only [applyFilters, applySorting, mem_arraySort, List.mem_filter, filterPredicate,
    searchAccepts, matchesGenre, matchesTheme, matchesStatus, hg, ht, hr, hu, if_false,
    beq_self_eq_true, Bool.true_or, Bool.and_true]

theorem search_clause_trimmed_witness :
    (loadedState.genreFilter = "" ∧ loadedState.themeFilter = "" ∧
        loadedState.statusFilter ≠ "read" ∧ loadedState.statusFilter ≠ "unread") ∧
      (ariel ∈ (applyFilters asciiHost loadedState).filteredBooks ↔
        ariel ∈ loadedState.allBooks ∧
          searchAccepts asciiHost loadedState.searchInput ariel = true) :=
  ⟨⟨rfl, rfl, by decide, by decide⟩,
    (search_clause_trimmed asciiHost loadedState ariel rfl rfl (by decide) (by decide)).2⟩

/-! ## Filtering with every filter unset (C6) -/

theorem filterPredicate_unset (H : Host) (s : State) (hlow : H.toLowerCase "" = "")
    (hq : s.searchInput = "") (hg : s.genreFilter = "") (ht : s.themeFilter = "")
    (hr : s.statusFilter ≠ "read") (hu : s.statusFilter ≠ "unread") (book : Book) :
    filterPredicate H s book = true := by
  have htrim : trim "" = "" := by decide
  simp [filterPredicate, matchesSearch, matchesGenre, matchesTheme, matchesStatus, hq, hg, ht,
    hr, hu, hlow, htrim]

/-- C6: when the search text, genre and theme are empty and the status is neither read nor
unread, the list produced by `applyFilters` is a permutation of the catalog for every sort key:
each book occurs in it exactly as often as in `allBooks`; and for a sort key other than title,
author, year, year-desc and rating it is the catalog in its original order.  The host is
assumed to lower-case the empty string to the empty string. -/
theorem applyFilters_unset_perm (H : Host) (s : State) (hlow : H.toLowerCase "" = "")
    (hq : s.searchInput = "") (hg : s.genreFilter = "") (ht : s.themeFilter = "")
    (hr : s.statusFilter ≠ "read") (hu : s.statusFilter ≠ "unread") :
    (applyFilters H s).filteredBooks.Perm s.allBooks ∧
      (∀ book, (applyFilters H s).filteredBooks.count book = s.allBooks.count book) ∧
      (∀ book, book ∈ (applyFilters H s).filteredBooks ↔ book ∈ s.allBooks) ∧
      (s.sortBy ≠ "title" → s.sortBy ≠ "author" → s.sortBy ≠ "year" →
        s.sortBy ≠ "year-desc" → s.sortBy ≠ "rating" →
        (applyFilters H s).filteredBooks = s.allBooks) := by
  have hfilter : s.allBooks.filter (filterPredicate H s) = s.allBooks :=
    List.filter_eq_self.mpr (fun b _ => filterPredicate_unset H s hlow hq hg ht hr hu b)
  have hperm : (applyFilters H s).filteredBooks.Perm s.allBooks := by
    simp only [applyFilters, applySorting, hfilter]
    exact arraySort_perm _ _
  refine ⟨hperm, fun b => hperm.count_eq b, fun b => hperm.mem_iff, ?_⟩
  intro h1 h2 h3 h4 h5
  simp only [applyFilters, applySorting, hfilter]
  apply arraySort_const_zero
  intro a b
  simp [compareBooks, h1, h2, h3, h4, h5]

theorem applyFilters_unset_perm_witness :
    (asciiHost.toLowerCase "" = "" ∧ loadedState.searchInput = "" ∧
        loadedState.genreFilter = "" ∧ loadedState.themeFilter = "" ∧
        loadedState.statusFilter ≠ "read" ∧ loadedState.statusFilter ≠ "unread") ∧
      (applyFilters asciiHost loadedState).filteredBooks.Perm loadedState.allBooks :=
  ⟨⟨by decide, rfl, rfl, rfl, by decide, by decide⟩,
    (applyFilters_unset_perm asciiHost loadedState (by decide) rfl rfl rfl
      (by decide) (by decide)).1⟩

/-! ## Sorting by rating (C7) -/

theorem compareBooks_rating (H : Host) (userData : UserData) (a b : Book) :
    compareBooks H userData "rating" a b = ratingOf userData b - ratingOf userData a := by
  simp [compareBooks, ratingOf]

theorem compareBooks_rating_consistent (H : Host) (userData : UserData) :
    Consistent (compareBooks H userData "rating") := by
  constructor
  · intro a b
    simp only [compareBooks_rating]
    omega
  · intro a b c
    simp only [compareBooks_rating]
    omega

theorem arraySort_rating_sorted (H : Host) (userData : UserData) (l : List Book) :
    RatingSorted userData (arraySort (compareBooks H userData "rating") l) := by
  have h := arraySort_sorted _ (compareBooks_rating_consistent H userData) l
  refine h.imp ?_
  intro a b hab
  simp only [compareBooks_rating] at hab
  omega

theorem arraySort_rating_stable (H : Host) (userData : UserData) (v : Int) (l : List Book) :
    withRating userData v (arraySort (compareBooks H userData "rating") l) =
      withRating userData v l := by
  unfold withRating
  apply arraySort_filter
  intro a b ha hb
  simp only [decide_eq_true_eq] at ha hb
  simp only [compareBooks_rating, ha, hb]
  omega

/-- C7, as stated, fails: load the catalog `[ariel, odes]` with no ratings, choose the year key
and then the rating key.  The state is reachable, both books have rating 0, and the visible list
is `[odes, ariel]`, the reverse of their order in the catalog. -/
theorem rating_ties_catalog_order_counterexample :
    Reachable asciiHost yearSortedState ∧
      (handle asciiHost yearSortedState (.sortByChange "rating")).allBooks = [ariel, odes] ∧
      (handle asciiHost yearSortedState (.sortByChange "rating")).filteredBooks = [odes, ariel] ∧
      ratingOf (handle asciiHost yearSortedState (.sortByChange "rating")).userData odes =
        ratingOf (handle asciiHost yearSortedState (.sortByChange "rating")).userData ariel ∧
      ¬ TiesFollow (handle asciiHost yearSortedState (.sortByChange "rating")).userData
          (handle asciiHost yearSortedState (.sortByChange "rating")).filteredBooks
          (handle asciiHost yearSortedState (.sortByChange "rating")).allBooks := by
  refine ⟨Reachable.step _ _ (Reachable.load _ _ _ _ _ _ _), by decide, by decide, by decide, ?_⟩
  intro h
  have h0 := h 0
  have hl : withRating (handle asciiHost yearSortedState (.sortByChange "rating")).userData 0
      (handle asciiHost yearSortedState (.sortByChange "rating")).filteredBooks = [odes, ariel] := by
    decide
  have ha : (handle asciiHost yearSortedState (.sortByChange "rating")).allBooks
      = [ariel, odes] := by decide
  rw [hl, ha] at h0
  exact absurd h0 (by decide)

/-- C7 amended: in every state (so in every reachable one), after the rating key is chosen
the visible list is in non-increasing order of stored rating and the books of any one rating
stand in the same order as in the visible list before the sort; when the list is rebuilt by
`applyFilters` with the rating key, it is in non-increasing order of stored rating and the books
of any one rating stand in the same relative order as in the catalog. -/
theorem rating_sort_stable (H : Host) (s : State) :
    (RatingSorted (handle H s (.sortByChange "rating")).userData
        (handle H s (.sortByChange "rating")).filteredBooks ∧
      ∀ v, withRating (handle H s (.sortByChange "rating")).userData v
            (handle H s (.sortByChange "rating")).filteredBooks =
          withRating s.userData v s.filteredBooks) ∧
    (RatingSorted (applyFilters H { s with sortBy := "rating" }).userData
        (applyFilters H { s with sortBy := "rating" }).filteredBooks ∧
      TiesFollow (applyFilters H { s with sortBy := "rating" }).userData
        (applyFilters H { s with sortBy := "rating" }).filteredBooks
        (applyFilters H { s with sortBy := "rating" }).allBooks) := by
  refine ⟨⟨?_, ?_⟩, ?_, ?_⟩
  · exact arraySort_rating_sorted H s.userData s.filteredBooks
  · intro v
    exact arraySort_rating_stable H s.userData v s.filteredBooks
  · exact arraySort_rating_sorted H s.userData _
  · intro v
    simp only [applyFilters, applySorting]
    rw [arraySort_rating_stable]
    exact (List.filter_sublist _).trans (List.filter_sublist _)

/-! ## Idempotence of the pipeline (C8) -/

theorem compareBooks_consistent (H : Host) (hc : Consistent H.localeCompare)
    (userData : UserData) (sortValue : String) :
    Consistent (compareBooks H userData sortValue) := by
  unfold compareBooks
  split_ifs
  · exact ⟨fun a b => hc.1 _ _, fun a b c => hc.2 _ _ _⟩
  · exact ⟨fun a b => hc.1 _ _, fun a b c => hc.2 _ _ _⟩
  all_goals
    constructor
    · intro a b
      beta_reduce
      omega
    · intro a b c
      beta_reduce
      omega

theorem filterPredicate_congr (H : Host) (s t : State) (hu : t.userData = s.userData)
    (hq : t.searchInput = s.searchInput) (hg : t.genreFilter = s.genreFilter)
    (ht : t.themeFilter = s.themeFilter) (hs : t.statusFilter = s.statusFilter) :
    filterPredicate H t = filterPredicate H s := by
  funext book
  simp only [filterPredicate, hu, hq, hg, ht, hs]

/-- C8: for a host whose `localeCompare` is a consistent comparator, the filter-and-sort
pipeline is idempotent for every catalog, store, filter criteria and sort key: running
`applyFilters` with its own output as the catalog, under the same store, criteria and key,
gives that output again; and `applySorting` applied twice gives the same state as applied
once. -/
theorem filter_sort_idempotent (H : Host) (hc : Consistent H.localeCompare) (s : State) :
    (applyFilters H { applyFilters H s with allBooks := (applyFilters H s).filteredBooks
        }).filteredBooks = (applyFilters H s).filteredBooks ∧
      applySorting H (applySorting H s) = applySorting H s := by
  constructor
  · have hpred : filterPredicate H
        { applyFilters H s with allBooks := (applyFilters H s).filteredBooks } =
        filterPredicate H s :=
      filterPredicate_congr H s _ rfl rfl rfl rfl rfl
    have hall : ∀ b ∈ (applyFilters H s).filteredBooks, filterPredicate H s b = true := by
      intro b hb
      simp only [applyFilters, applySorting, mem_arraySort, List.mem_filter] at hb
      exact hb.2
    have hkeep : (applyFilters H s).filteredBooks.filter (filterPredicate H s) =
        (applyFilters H s).filteredBooks := List.filter_eq_self.mpr hall
    show arraySort (compareBooks H s.userData s.sortBy)
        ((applyFilters H s).filteredBooks.filter (filterPredicate H
          { applyFilters H s with allBooks := (applyFilters H s).filteredBooks })) = _
    rw [hpred, hkeep]
    exact arraySort_idem _ (compareBooks_consistent H hc _ _) _
  · simp only [applySorting]
    rw [arraySort_idem _ (compareBooks_consistent H hc _ _)]

theorem filter_sort_idempotent_witness :
    Consistent asciiHost.localeCompare ∧
      (applyFilters asciiHost
          { applyFilters asciiHost loadedState with
            allBooks := (applyFilters asciiHost loadedState).filteredBooks }).filteredBooks =
        (applyFilters asciiHost loadedState).filteredBooks :=
  ⟨codePointCompare_consistent,
    (filter_sort_idempotent asciiHost codePointCompare_consistent loadedState).1⟩

/-! ## Recommendations: the affinity tables -/

theorem addLabels_apply (t : Table) (labels : List String) (w : Int) (k : String) :
    addLabels t labels w k =
      if labels.contains k then some ((t k).getD 0 + w * (labels.count k : Int)) else t k := by
  induction labels generalizing t with
  | nil => simp [addLabels]
  | cons l labels ih =>
    have hstep : addLabels t (l :: labels) w = addLabels (addWeight t l w) labels w := rfl
    rw [hstep, ih]
    by_cases hkl : k = l
    · subst hkl
      by_cases hk : k ∈ labels
      · simp [addWeight, hk]
        ring
      · simp [addWeight, hk, List.count_eq_zero_of_not_mem hk]
    · have hlk : ¬ l = k := fun h => hkl h.symm
      by_cases hk : k ∈ labels
      · simp [addWeight, hk, hkl, hlk, List.count_cons]
      · simp [addWeight, hk, hkl, hlk]

theorem weightedAffinity_eq_zero (userData : UserData) (field : Book → List String)
    (seeds : List Book) (k : String) (h : ¬ ∃ x ∈ seeds, k ∈ field x) :
    weightedAffinity userData field seeds k = 0 := by
  unfold weightedAffinity
  apply List.sum_eq_zero
  intro x hx
  obtain ⟨c, hc, rfl⟩ := List.mem_map.mp hx
  have hnot : k ∉ field c := fun hk => h ⟨c, hc, hk⟩
  simp [List.count_eq_zero_of_not_mem hnot]

theorem tableFold_apply (userData : UserData) (field : Book → List String) (t : Table)
    (seeds : List Book) (k : String) :
    tableFold userData field t seeds k =
      if seeds.any (fun b => (field b).contains k) then
        some ((t k).getD 0 + weightedAffinity userData field seeds k)
      else t k := by
  induction seeds generalizing t with
  | nil => simp [tableFold]
  | cons b seeds ih =>
    have hstep : tableFold userData field t (b :: seeds) =
        tableFold userData field (addLabels t (field b) (ratingOf userData b)) seeds := rfl
    rw [hstep, ih, addLabels_apply]
    have hW : weightedAffinity userData field (b :: seeds) k =
        ratingOf userData b * ((field b).count k : Int) +
          weightedAffinity userData field seeds k := by
      simp [weightedAffinity]
    rw [hW]
    by_cases hb : k ∈ field b
    · by_cases hs : ∃ x ∈ seeds, k ∈ field x
      · simp [hb, hs]
        ring
      · simp [hb, hs, weightedAffinity_eq_zero userData field seeds k hs]
    · by_cases hs : ∃ x ∈ seeds, k ∈ field x
      · simp [hb, hs, List.count_eq_zero_of_not_mem hb]
      · simp [hb, hs]

theorem collectPreferences_eq_tableFold (userData : UserData) (seeds : List Book) :
    collectPreferences userData seeds =
      (tableFold userData Book.genres emptyTable seeds,
        tableFold userData Book.themes emptyTable seeds) := by
  have hgen : ∀ (acc : Table × Table),
      seeds.foldl
        (fun acc book =>
          let weight := (getUserBookData userData book.id).rating
          (addLabels acc.1 book.genres weight, addLabels acc.2 book.themes weight)) acc =
      (tableFold userData Book.genres acc.1 seeds, tableFold userData Book.themes acc.2 seeds) := by
    induction seeds with
    | nil => intro acc; rfl
    | cons b seeds ih =>
      intro acc
      simp only [List.foldl_cons]
      rw [ih]
      rfl
  exact hgen (emptyTable, emptyTable)

theorem collectPreferences_eq_weightedTable (userData : UserData) (seeds : List Book) :
    collectPreferences userData seeds =
      (weightedTable userData Book.genres seeds, weightedTable userData Book.themes seeds) := by
  rw [collectPreferences_eq_tableFold]
  congr 1 <;>
  · funext k
    rw [tableFold_apply]
    simp [weightedTable, emptyTable]

theorem weightedTable_getD (userData : UserData) (field : Book → List String)
    (seeds : List Book) (k : String) :
    (weightedTable userData field seeds k).getD 0 = weightedAffinity userData field seeds k := by
  unfold weightedTable
  by_cases hs : ∃ x ∈ seeds, k ∈ field x
  · simp [hs]
  · simp [hs, weightedAffinity_eq_zero userData field seeds k hs]

/-! ## Recommendations: the score (C1) -/

theorem foldl_cond_add (cond : String → Bool) (g : String → Int)
    (h : ∀ x, cond x = false → g x = 0) (l : List String) (init : Int) :
    l.foldl (fun score x => if cond x then score + g x else score) init =
      init + (l.map g).sum := by
  induction l generalizing init with
  | nil => simp
  | cons x l ih =>
    simp only [List.foldl_cons, List.map_cons, List.sum_cons]
    rw [ih]
    by_cases hx : cond x = true
    · simp only [hx, if_true]
      ring
    · have hx' : cond x = false := by simpa using hx
      simp [hx', h x hx']

theorem truthy_false {v : Option Int} (h : truthy v = false) : v.getD 0 = 0 := by
  cases v with
  | none => rfl
  | some n => simpa [truthy] using h

theorem scoreBook_eq (pg pt : Table) (book : Book) :
    scoreBook pg pt book =
      2 * (book.genres.map (fun g => (pg g).getD 0)).sum +
        (book.themes.map (fun t => (pt t).getD 0)).sum := by
  unfold scoreBook
  simp only
  rw [foldl_cond_add (fun g => truthy (pg g)) (fun g => (pg g).getD 0 * 2)
      (fun x hx => by simp [truthy_false hx]),
    foldl_cond_add (fun t => truthy (pt t)) (fun t => (pt t).getD 0)
      (fun x hx => truthy_false hx),
    List.sum_map_mul_right]
  ring

theorem candidateScore_eq_weightedScore (allBooks : List Book) (userData : UserData)
    (book : Book) : candidateScore allBooks userData book = weightedScore allBooks userData book := by
  unfold candidateScore weightedScore
  rw [scoreBook_eq, collectPreferences_eq_weightedTable]
  simp only [weightedTable_getD]

theorem candidateScore_nonneg (allBooks : List Book) (userData : UserData) (book : Book) :
    0 ≤ candidateScore allBooks userData book := by
  rw [candidateScore_eq_weightedScore]
  have hW : ∀ (field : Book → List String) (k : String),
      0 ≤ weightedAffinity userData field (highlyRatedBooks allBooks userData) k := by
    intro field k
    unfold weightedAffinity
    apply List.sum_nonneg
    intro x hx
    obtain ⟨c, hc, rfl⟩ := List.mem_map.mp hx
    have hc4 : ratingOf userData c ≥ 4 := by
      have := (List.mem_filter.mp hc).2
      simpa [ratingOf] using this
    positivity
  unfold weightedScore
  have h1 : 0 ≤ (book.genres.map
      (weightedAffinity userData Book.genres (highlyRatedBooks allBooks userData))).sum := by
    apply List.sum_nonneg
    intro x hx
    obtain ⟨c, _, rfl⟩ := List.mem_map.mp hx
    exact hW _ _
  have h2 : 0 ≤ (book.themes.map
      (weightedAffinity userData Book.themes (highlyRatedBooks allBooks userData))).sum := by
    apply List.sum_nonneg
    intro x hx
    obtain ⟨c, _, rfl⟩ := List.mem_map.mp hx
    exact hW _ _
  omega

theorem roundHalfEven_abs (x : ℚ) : |(roundHalfEven x : ℚ) - x| ≤ 1 / 2 := by
  have h1 := Int.floor_le x
  have h2 := Int.lt_floor_add_one x
  unfold roundHalfEven
  rw [abs_le]
  split_ifs <;> push_cast <;> constructor <;> linarith

theorem toDouble_error (x : ℚ) (hx : 0 < x) :
    |toDouble x - x| ≤ x * (1 / 2 ^ 53) := by
  have hne : x ≠ 0 := ne_of_gt hx
  have habs : |x| = x := abs_of_pos hx
  unfold toDouble
  rw [if_neg hne, habs]
  set p := Int.log 2 x with hp
  have hB : (0 : ℚ) < (2 : ℚ) ^ (p - 52) := zpow_pos (by norm_num) _
  have hlog : ((2 : ℕ) : ℚ) ^ p ≤ x := Int.zpow_log_le_self (by norm_num) hx
  have hBle : (2 : ℚ) ^ (p - 52) ≤ x * (1 / 2 ^ 52) := by
    rw [zpow_sub₀ (by norm_num : (2 : ℚ) ≠ 0)]
    have h52 : (2 : ℚ) ^ (52 : ℤ) = 2 ^ 52 := by norm_cast
    rw [h52, div_eq_mul_one_div]
    have hcast : ((2 : ℕ) : ℚ) = 2 := by norm_num
    rw [hcast] at hlog
    exact mul_le_mul_of_nonneg_right hlog (by positivity)
  have hr := roundHalfEven_abs (x / (2 : ℚ) ^ (p - 52))
  have heq : (roundHalfEven (x / (2 : ℚ) ^ (p - 52)) : ℚ) * (2 : ℚ) ^ (p - 52) - x =
      ((roundHalfEven (x / (2 : ℚ) ^ (p - 52)) : ℚ) - x / (2 : ℚ) ^ (p - 52)) *
        (2 : ℚ) ^ (p - 52) := by
    field_simp
  rw [heq, abs_mul, abs_of_pos hB]
  calc |(roundHalfEven (x / (2 : ℚ) ^ (p - 52)) : ℚ) - x / (2 : ℚ) ^ (p - 52)| *
        (2 : ℚ) ^ (p - 52)
      ≤ 1 / 2 * (2 : ℚ) ^ (p - 52) := mul_le_mul_of_nonneg_right hr (le_of_lt hB)
    _ ≤ 1 / 2 * (x * (1 / 2 ^ 52)) := mul_le_mul_of_nonneg_left hBle (by norm_num)
    _ = x * (1 / 2 ^ 53) := by ring

theorem toFixed1_nearest (T N : Int) (x : ℚ) (hN : 1 ≤ N) (hN32 : N < 2 ^ 32) (hT1 : N ≤ T)
    (hT5 : T ≤ 5 * N) (hx : |x - (T : ℚ) / N| ≤ (T : ℚ) / N * (1 / 2 ^ 53)) :
    |(toFixed1 x : ℚ) / 10 - (T : ℚ) / N| ≤ 1 / 20 := by
  have hNq : (0 : ℚ) < N := by exact_mod_cast (by omega : (0 : Int) < N)
  have hq1 : (1 : ℚ) ≤ (T : ℚ) / N := by
    rw [le_div_iff₀ hNq]
    exact_mod_cast (by omega : 1 * N ≤ T)
  have hq5 : (T : ℚ) / N ≤ 5 := by
    rw [div_le_iff₀ hNq]
    exact_mod_cast hT5
  obtain ⟨hxl, hxu⟩ := abs_le.mp hx
  have hxpos : 0 < x := by
    have : (T : ℚ) / N * (1 / 2 ^ 53) ≤ 5 * (1 / 2 ^ 53) :=
      mul_le_mul_of_nonneg_right hq5 (by positivity)
    have h5 : (5 : ℚ) * (1 / 2 ^ 53) < 1 := by norm_num
    linarith
  have hfix : toFixed1 x = ⌊10 * x + 1 / 2⌋ := by
    unfold toFixed1
    rw [if_neg (not_lt.mpr (le_of_lt hxpos))]
  rw [hfix]
  have herr : (T : ℚ) / N * (1 / 2 ^ 53) ≤ 5 * (1 / 2 ^ 53) :=
    mul_le_mul_of_nonneg_right hq5 (by positivity)
  -- the exact value `10 * T / N + 1 / 2` as quotient and remainder by `2 * N`
  have hDpos : (0 : Int) < 2 * N := by omega
  have hdiv := Int.emod_add_ediv (20 * T + N) (2 * N)
  have hj0 := Int.emod_nonneg (20 * T + N) (ne_of_gt hDpos)
  have hj1 := Int.emod_lt_of_pos (20 * T + N) hDpos
  set k := (20 * T + N) / (2 * N) with hk
  set j := (20 * T + N) % (2 * N) with hj
  have hDq : (0 : ℚ) < 2 * (N : ℚ) := by linarith
  have hy : 10 * ((T : ℚ) / N) + 1 / 2 = (k : ℚ) + (j : ℚ) / (2 * (N : ℚ)) := by
    have hcast : ((20 * T + N : Int) : ℚ) = ((j + 2 * N * k : Int) : ℚ) := by rw [hdiv]
    push_cast at hcast
    have hNne : (N : ℚ) ≠ 0 := ne_of_gt hNq
    have h1 : 10 * ((T : ℚ) / N) + 1 / 2 = (20 * (T : ℚ) + N) / (2 * (N : ℚ)) := by
      field_simp
      ring
    rw [h1, hcast]
    field_simp
    ring
  have hinv : (1 : ℚ) / 2 ^ 33 < 1 / (2 * (N : ℚ)) := by
    apply one_div_lt_one_div_of_lt hDq
    have : (2 * N : Int) < 2 ^ 33 := by omega
    exact_mod_cast this
  have hsmall : (10 : ℚ) * (5 * (1 / 2 ^ 53)) < 1 / 2 ^ 33 := by norm_num
  have hjle : (j : ℚ) / (2 * (N : ℚ)) ≤ 1 - 1 / (2 * (N : ℚ)) := by
    have h1 : (j : ℚ) ≤ 2 * (N : ℚ) - 1 := by exact_mod_cast (by omega : j ≤ 2 * N - 1)
    have h2 : (1 : ℚ) - 1 / (2 * (N : ℚ)) = (2 * (N : ℚ) - 1) / (2 * (N : ℚ)) := by
      field_simp
    rw [h2]
    exact div_le_div_of_nonneg_right h1 (le_of_lt hDq)
  have hjnonneg : (0 : ℚ) ≤ (j : ℚ) / (2 * (N : ℚ)) :=
    div_nonneg (by exact_mod_cast hj0) (le_of_lt hDq)
  have hjlt : (j : ℚ) / (2 * (N : ℚ)) < 1 := by
    have : (0 : ℚ) < 1 / (2 * (N : ℚ)) := by positivity
    linarith
  -- the printed integer is `k` or, on an exact tie, possibly `k - 1`
  have hupper : ⌊10 * x + 1 / 2⌋ ≤ k := by
    have hlt : ⌊10 * x + 1 / 2⌋ < k + 1 := by
      rw [Int.floor_lt]
      push_cast
      linarith
    omega
  have hlower : (k : ℚ) + (j : ℚ) / (2 * (N : ℚ)) - 1 ≤ ((⌊10 * x + 1 / 2⌋ : Int) : ℚ) := by
    by_cases hjz : j = 0
    · have hk1 : k - 1 ≤ ⌊10 * x + 1 / 2⌋ := by
        rw [Int.le_floor]
        push_cast
        have : (0 : ℚ) < 1 / 2 ^ 33 := by positivity
        linarith
      have hk1q : ((k - 1 : Int) : ℚ) ≤ ((⌊10 * x + 1 / 2⌋ : Int) : ℚ) := by exact_mod_cast hk1
      push_cast at hk1q
      rw [hjz]
      simp only [Int.cast_zero, zero_div, add_zero]
      exact hk1q
    · have hjpos : (1 : ℚ) / (2 * (N : ℚ)) ≤ (j : ℚ) / (2 * (N : ℚ)) := by
        apply div_le_div_of_nonneg_right _ (le_of_lt hDq)
        exact_mod_cast (by omega : 1 ≤ j)
      have hk0 : k ≤ ⌊10 * x + 1 / 2⌋ := by
        rw [Int.le_floor]
        linarith
      have hk0q : (k : ℚ) ≤ ((⌊10 * x + 1 / 2⌋ : Int) : ℚ) := by exact_mod_cast hk0
      linarith
  have hupperq : ((⌊10 * x + 1 / 2⌋ : Int) : ℚ) ≤ (k : ℚ) := by exact_mod_cast hupper
  rw [abs_le]
  constructor <;> linarith

theorem log_two_eq (x : ℚ) (z : Int) (hx : 0 < x) (h1 : (2 : ℚ) ^ z ≤ x)
    (h2 : x < (2 : ℚ) ^ (z + 1)) : Int.log 2 x = z := by
  have hb : 1 < (2 : ℕ) := by norm_num
  have a1 : z ≤ Int.log 2 x := by
    rw [← Int.zpow_le_iff_le_log hb hx]
    exact_mod_cast h1
  have a2 : Int.log 2 x < z + 1 := by
    rw [← Int.lt_zpow_iff_log_lt hb hx]
    exact_mod_cast h2
  omega

/-- On an exact tie the printed digit follows the binary value of the quotient: the mean 4.35
(sum 87 over 20 books) is printed as 4.3, since the double nearest to 4.35 lies below it. -/
theorem toFixed1_tie_below : toFixed1 (toDouble (87 / 20)) = 43 := by
  have hlog : Int.log 2 |(87 / 20 : ℚ)| = 2 := by
    rw [abs_of_pos (by norm_num)]
    exact log_two_eq _ 2 (by norm_num) (by norm_num) (by norm_num)
  have hfl : ⌊(87 / 20 : ℚ) / (2 : ℚ) ^ ((2 : Int) - 52)⌋ = 4897664594765414 := by
    rw [Int.floor_eq_iff]
    constructor <;> norm_num
  unfold toDouble
  rw [if_neg (by norm_num), hlog]
  unfold roundHalfEven
  rw [hfl]
  norm_num
  unfold toFixed1
  rw [if_neg (by norm_num), Int.floor_eq_iff]
  constructor <;> norm_num

/-- The mean 1.25 (sum 5 over 4 books) is a double, and the tie is printed as 1.3. -/
theorem toFixed1_tie_exact : toFixed1 (toDouble (5 / 4)) = 13 := by
  have hlog : Int.log 2 |(5 / 4 : ℚ)| = 0 := by
    rw [abs_of_pos (by norm_num)]
    exact log_two_eq _ 0 (by norm_num) (by norm_num) (by norm_num)
  have hfl : ⌊(5 / 4 : ℚ) / (2 : ℚ) ^ ((0 : Int) - 52)⌋ = 5629499534213120 := by
    rw [Int.floor_eq_iff]
    constructor <;> norm_num
  unfold toDouble
  rw [if_neg (by norm_num), hlog]
  unfold roundHalfEven
  rw [hfl]
  norm_num
  unfold toFixed1
  rw [if_neg (by norm_num), Int.floor_eq_iff]
  constructor <;> norm_num

theorem foldl_add_eq_sum (f : Book → Int) (l : List Book) (init : Int) :
    l.foldl (fun sum book => sum + f book) init = init + (l.map f).sum := by
  induction l generalizing init with
  | nil => simp
  | cons b l ih =>
    simp only [List.foldl_cons, List.map_cons, List.sum_cons]
    rw [ih]
    ring

theorem totalRating_eq_sum (allBooks : List Book) (userData : UserData) :
    totalRating allBooks userData =
      ((allBooks.filter (fun b => decide (ratingOf userData b > 0))).map
        (ratingOf userData)).sum := by
  unfold totalRating
  rw [foldl_add_eq_sum (fun book => (getUserBookData userData book.id).rating)]
  simp only [zero_add]
  rfl

theorem sum_between (f : Book → Int) (l : List Book) (h : ∀ b ∈ l, 1 ≤ f b ∧ f b ≤ 5) :
    (l.length : Int) ≤ (l.map f).sum ∧ (l.map f).sum ≤ 5 * (l.length : Int) := by
  induction l with
  | nil => simp
  | cons b l ih =>
    have hb := h b (List.mem_cons_self _ _)
    have hl := ih (fun c hc => h c (List.mem_cons_of_mem _ hc))
    simp only [List.map_cons, List.sum_cons, List.length_cons]
    push_cast
    omega

/-- C10: for a catalog (an array, so shorter than 2^32) and a store with ratings in [0,5], the
average rating computed by `updateStats` is the sentinel '-' if and only if no catalog book has
rating > 0; otherwise it is the arithmetic mean of the ratings of exactly the catalog books with
rating > 0, rounded to one decimal place: the printed number n/10 differs from that mean by at
most 0.05, so it is a one-decimal number nearest to the mean. -/
theorem average_rating (allBooks : List Book) (userData : UserData)
    (hr : ∀ b ∈ allBooks, 0 ≤ ratingOf userData b ∧ ratingOf userData b ≤ 5)
    (hlen : allBooks.length < 2 ^ 32) :
    ((updateStats allBooks userData).averageRating = none ↔
        ∀ b ∈ allBooks, ¬ ratingOf userData b > 0) ∧
      ((∃ b ∈ allBooks, ratingOf userData b > 0) →
        ∃ n : Int, (updateStats allBooks userData).averageRating = some n) ∧
      (∀ n : Int, (updateStats allBooks userData).averageRating = some n →
        |(n : ℚ) / 10 - meanRating allBooks userData| ≤ 1 / 20) := by
  have hrated : ratedBooks allBooks userData =
      allBooks.filter (fun b => decide (ratingOf userData b > 0)) := rfl
  have hnone : (updateStats allBooks userData).averageRating = none ↔
      ∀ b ∈ allBooks, ¬ ratingOf userData b > 0 := by
    unfold updateStats
    simp only
    rw [hrated]
    constructor
    · intro h
      split at h
      · exact Option.noConfusion h
      · next hlen0 =>
        have hnil : allBooks.filter (fun b => decide (ratingOf userData b > 0)) = [] :=
          List.length_eq_zero.mp (by omega)
        intro b hb hpos
        have := List.filter_eq_nil_iff.mp hnil b hb
        exact this (by simpa using hpos)
    · intro h
      have hnil : allBooks.filter (fun b => decide (ratingOf userData b > 0)) = [] :=
        List.filter_eq_nil_iff.mpr (fun b hb => by simpa using h b hb)
      rw [hnil]
      rfl
  refine ⟨hnone, ?_, ?_⟩
  · rintro ⟨b, hb, hpos⟩
    cases hval : (updateStats allBooks userData).averageRating with
    | none => exact absurd hpos (hnone.mp hval b hb)
    | some n => exact ⟨n, rfl⟩
  · intro n hn
    unfold updateStats at hn
    simp only at hn
    split at hn
    · next hpos =>
      have hn' := (Option.some.inj hn).symm
      rw [hn']
      unfold meanRating
      rw [totalRating_eq_sum, hrated]
      rw [hrated] at hpos
      set rated := allBooks.filter (fun b => decide (ratingOf userData b > 0)) with hrdef
      have hbounds := sum_between (ratingOf userData) rated (by
        intro b hb
        obtain ⟨hmem, hp⟩ := List.mem_filter.mp hb
        have hp' : ratingOf userData b > 0 := by simpa using hp
        have := (hr b hmem).2
        omega)
      have hlenle : rated.length ≤ allBooks.length := List.length_filter_le _ _
      have hN32 : (rated.length : Int) < 2 ^ 32 := by
        have : rated.length < 2 ^ 32 := by omega
        exact_mod_cast this
      have hN1 : (1 : Int) ≤ (rated.length : Int) := by omega
      have hcastN : ((rated.length : Int) : ℚ) = (rated.length : ℚ) := Int.cast_natCast _
      have hmeanpos : (0 : ℚ) < ((rated.map (ratingOf userData)).sum : ℚ) / (rated.length : ℚ) := by
        apply div_pos
        · exact_mod_cast (by omega : (0 : Int) < (rated.map (ratingOf userData)).sum)
        · exact_mod_cast (by omega : 0 < rated.length)
      have hdouble := toDouble_error _ hmeanpos
      have key := toFixed1_nearest (rated.map (ratingOf userData)).sum (rated.length : Int)
        (toDouble (((rated.map (ratingOf userData)).sum : ℚ) / (rated.length : ℚ)))
        hN1 hN32 hbounds.1 hbounds.2 (by rw [hcastN]; exact hdouble)
      rw [hcastN] at key
      exact key
    · exact Option.noConfusion hn

theorem average_rating_witness :
    ((∀ b ∈ [ariel, odes], 0 ≤ ratingOf ratedStore b ∧ ratingOf ratedStore b ≤ 5) ∧
        [ariel, odes].length < 2 ^ 32) ∧
      ((updateStats [ariel, odes] ratedStore).averageRating = none ↔
        ∀ b ∈ [ariel, odes], ¬ ratingOf ratedStore b > 0) :=
  ⟨⟨by decide, by norm_num⟩,
    (average_rating [ariel, odes] ratedStore (by decide) (by norm_num)).1⟩

end PoetryBookTracker
